import Mathlib

/-!
Shallow embedding of `src/utils/cache/base.py` (`MemoCache`), the two-tier
memoization cache: an in-memory map of pickled payloads backed by an optional
on-disk file-per-key store, with read-through/write-through orchestration.

Modelling choices, all taken from the source:
* Values handed to `query`/`pickle` are modelled as `Nat`; pickled payloads
  (`bytes`) as `List Nat`.  `pickle.dumps` / `pickle.loads` are environment
  functions returning `Option` (`none` = `PicklingError` / `UnpicklingError`).
* `cachetools.TTLCache` is modelled as an association list from namespaced key
  to payload.  TTL expiry and capacity eviction are not modelled: every claim
  below is explicitly scoped to the window before any expiry or eviction.
* The filesystem is an association list from path to payload plus a list of
  created directories (`os.makedirs` in `_get_file_path`).  I/O failures of
  `streamlit_read`, `streamlit_write` and `os.remove` are oracle functions of
  the path in the environment, as are the leftover bytes a failed
  `streamlit_write` leaves at the path before cleanup.
* Python exceptions become the `CacheErr` sum: `CacheKeyNotFoundError`,
  `CacheError`, `ValueError` (raised by `value_key.split(":", 1)` when the
  key has no colon), and an uncaught exception escaping `self.query`.
* `os.path.abspath` is modelled as the identity on the joined path (a fixed
  working directory); `os.path.join a b` as `a ++ "/" ++ b`.
-/

namespace MemoCacheModel

/-- Pickled payload bytes (`bytes` in the source). -/
abbrev Bytes := List Nat

/-- A cacheable Python value (opaque to the cache; only `pickle` touches it). -/
abbrev Val := Nat

/-- Exceptions that `MemoCache` methods raise or propagate. -/
inductive CacheErr where
  /-- `CacheKeyNotFoundError`: key absent from a tier. -/
  | keyNotFound : CacheErr
  /-- `CacheError` with its message string. -/
  | cacheError : String → CacheErr
  /-- `ValueError` from `value_key.split(":", 1)` on a colon-free key. -/
  | valueError : CacheErr
  /-- An exception escaping the abstract `query` method. -/
  | sourceError : CacheErr
deriving DecidableEq, Repr

/-- Constructor-time configuration of a `MemoCache` instance:
`cache_name` (the class attribute used as namespace) and `persist`
(`Optional[str]`, compared against the literal `"disk"`). -/
structure Config where
  cacheName : String
  persist : Option String
deriving DecidableEq, Repr

/-- The environment a `MemoCache` runs in: the pickle module, the abstract
`query` capability, the `CACHE_PATH` root, and oracles describing which disk
operations fail.  `query k = none` models an exception escaping `query`;
`dumps v = none` a `PicklingError`; `loads b = none` an `UnpicklingError`.
`diskReadFails p` makes `streamlit_read` fail on an existing file `p` with an
error other than `FileNotFoundError`; `diskWriteFails p` makes
`streamlit_write` fail at `p`, leaving `writeLeftover p` on disk (`none` =
the file was never created); `removeFails p` makes `os.remove` of an existing
file `p` raise an error other than `FileNotFoundError`. -/
structure Env where
  dumps : Val → Option Bytes
  loads : Bytes → Option Val
  query : String → Option Val
  root : String
  diskReadFails : String → Bool
  diskWriteFails : String → Bool
  writeLeftover : String → Option Bytes
  removeFails : String → Bool

/-- Mutable state of one `MemoCache` plus the filesystem it touches:
`memCache` is `self._mem_cache` (namespaced key ↦ pickled bytes), `disk` the
file contents (path ↦ bytes), `dirs` the directories created so far. -/
structure CacheState where
  memCache : List (String × Bytes)
  disk : List (String × Bytes)
  dirs : List String
deriving DecidableEq, Repr

/-- Association-list lookup (leftmost binding wins). -/
def assocLookup (k : String) : List (String × Bytes) → Option Bytes
  | [] => none
  | (k2, v) :: rest => if k2 = k then some v else assocLookup k rest

/-- Remove every binding of `k`. -/
def assocErase (k : String) : List (String × Bytes) → List (String × Bytes)
  | [] => []
  | (k2, v) :: rest =>
      if k2 = k then assocErase k rest else (k2, v) :: assocErase k rest

/-- Insert/overwrite the binding of `k` (last-writer-wins map update). -/
def assocInsert (k : String) (v : Bytes) (l : List (String × Bytes)) :
    List (String × Bytes) :=
  (k, v) :: assocErase k l

/-- `value_key.split(":", 1)` on the character list: split at the first
occurrence of `sep`, `none` when `sep` does not occur (Python raises
`ValueError` from the two-target unpacking in that case). -/
def splitCharAux (sep : Char) : List Char → Option (List Char × List Char)
  | [] => none
  | c :: cs =>
      if c = sep then some ([], cs)
      else
        match splitCharAux sep cs with
        | none => none
        | some (a, b) => some (c :: a, b)

/-- `value_key.split(":", 1)` as used by `_get_file_path`. -/
def splitFirstColon (s : String) : Option (String × String) :=
  match splitCharAux ':' s.data with
  | none => none
  | some (a, b) => some (⟨a⟩, ⟨b⟩)

/-- The path `_get_file_path` computes for a namespaced key `dir:file_name`,
*before* `os.path.abspath` normalization: the joined string
`{root}/{dir}/{file_name}.memo` (`none` when the key has no colon).  The
claims about the cache tiers use this as the per-key disk identifier, which
only requires that it be a deterministic function of the key.  The faithful
path — `os.path.join` with its absolute-component reset and `os.path.abspath`
with `normpath` collapsing of `.`/`..` segments — is `realFilePathOf` below,
used by the claim about path derivation itself. -/
def filePathOf (root : String) (valueKey : String) : Option String :=
  match splitFirstColon valueKey with
  | none => none
  | some (d, fname) => some (root ++ "/" ++ d ++ "/" ++ fname ++ ".memo")

/-- The `os.makedirs` side effect inside `_get_file_path`: the cache
directory `{root}/{dir}` is created when absent. -/
def ensureDir (env : Env) (st : CacheState) (d : String) : CacheState :=
  let cacheDir := env.root ++ "/" ++ d
  if cacheDir ∈ st.dirs then st else { st with dirs := cacheDir :: st.dirs }

/-- `MemoCache._get_file_path`, including its `os.makedirs` side effect.
Returns the path and the updated state, `none` modelling the `ValueError` on
a colon-free key.  Like `filePathOf`, the returned path is the
pre-`abspath` join string serving as per-key disk identifier; see
`realGetFilePath` for the faithful path computation. -/
def getFilePath (env : Env) (st : CacheState) (valueKey : String) :
    Option (String × CacheState) :=
  match splitFirstColon valueKey with
  | none => none
  | some (d, fname) =>
      some (env.root ++ "/" ++ d ++ "/" ++ fname ++ ".memo", ensureDir env st d)

/-- `MemoCache._read_from_mem_cache`: return the stored bytes or raise
`CacheKeyNotFoundError`.  (The lock and debug logging have no effect on the
sequential state.) -/
def readFromMemCache (st : CacheState) (key : String) : Except CacheErr Bytes :=
  match assocLookup key st.memCache with
  | some entry => .ok entry
  | none => .error .keyNotFound

/-- `MemoCache._read_from_disk_cache`: `FileNotFoundError` becomes
`CacheKeyNotFoundError`; any other read failure becomes
`CacheError("Unable to read from cache")`. -/
def readFromDiskCache (env : Env) (st : CacheState) (key : String) :
    Except CacheErr Bytes × CacheState :=
  match getFilePath env st key with
  | none => (.error .valueError, st)
  | some (path, st1) =>
      match assocLookup path st1.disk with
      | none => (.error .keyNotFound, st1)
      | some value =>
          if env.diskReadFails path then
            (.error (.cacheError "Unable to read from cache"), st1)
          else (.ok value, st1)

/-- `MemoCache._write_to_mem_cache`: `self._mem_cache[key] = pickled_value`. -/
def writeToMemCache (st : CacheState) (key : String) (pickledValue : Bytes) :
    CacheState :=
  { st with memCache := assocInsert key pickledValue st.memCache }

/-- `MemoCache._write_to_disk_cache`: on a write failure, whatever the failed
write left at the path is removed best-effort (`os.remove` errors are
swallowed), then `CacheError("Unable to write to cache")` is raised. -/
def writeToDiskCache (env : Env) (st : CacheState) (key : String)
    (pickledValue : Bytes) : Except CacheErr Unit × CacheState :=
  match getFilePath env st key with
  | none => (.error .valueError, st)
  | some (path, st1) =>
      if env.diskWriteFails path then
        let stPartial :=
          match env.writeLeftover path with
          | none => { st1 with disk := assocErase path st1.disk }
          | some leftover => { st1 with disk := assocInsert path leftover st1.disk }
        let stCleaned :=
          if env.removeFails path then stPartial
          else { stPartial with disk := assocErase path stPartial.disk }
        (.error (.cacheError "Unable to write to cache"), stCleaned)
      else (.ok (), { st1 with disk := assocInsert path pickledValue st1.disk })

/-- `MemoCache._remove_from_disk_cache`: `FileNotFoundError` is ignored, any
other `os.remove` failure is logged and swallowed; only the `ValueError` from
`_get_file_path` (computed outside the `try`) can escape. -/
def removeFromDiskCache (env : Env) (st : CacheState) (key : String) :
    Except CacheErr Unit × CacheState :=
  match getFilePath env st key with
  | none => (.error .valueError, st)
  | some (path, st1) =>
      match assocLookup path st1.disk with
      | none => (.ok (), st1)
      | some _ =>
          if env.removeFails path then (.ok (), st1)
          else (.ok (), { st1 with disk := assocErase path st1.disk })

/-- `MemoCache._write_value`: pickle the value (`PicklingError` becomes
`CacheError("Failed to pickle …")`), write to the memory cache, then — iff
`persist == "disk"` — to the disk cache; returns the pickled bytes. -/
def writeValue (env : Env) (cfg : Config) (st : CacheState) (key : String)
    (value : Val) : Except CacheErr Bytes × CacheState :=
  match env.dumps value with
  | none => (.error (.cacheError ("Failed to pickle " ++ key)), st)
  | some pickledValue =>
      let st1 := writeToMemCache st key pickledValue
      if cfg.persist = some "disk" then
        match writeToDiskCache env st1 key pickledValue with
        | (.error e, st2) => (.error e, st2)
        | (.ok _, st2) => (.ok pickledValue, st2)
      else (.ok pickledValue, st1)

/-- `pickle.loads(pickled_value)` at the end of `read_value`:
`UnpicklingError` becomes `CacheError("Failed to unpickle …")`. -/
def finishLoad (env : Env) (key : String) (pickledValue : Bytes) :
    Except CacheErr Val :=
  match env.loads pickledValue with
  | some v => .ok v
  | none => .error (.cacheError ("Failed to unpickle " ++ key))

deriving instance DecidableEq for Except

/-- Observable outcome of one `read_value` call: the returned value or raised
exception, the final state, and the arguments of the `self.query` and
`_read_from_disk_cache` calls made (for counting Source and disk accesses). -/
structure ReadResult where
  result : Except CacheErr Val
  state : CacheState
  queryCalls : List String
  diskReads : List String
deriving DecidableEq, Repr

/-- `MemoCache.read_value`: namespace the key as `f"{cache_name}:{key}"`,
try the memory cache; on `CacheKeyNotFoundError`, if `persist == "disk"` try
the disk cache (promoting a hit into memory) and on a disk
`CacheKeyNotFoundError` call `self.query` on the namespaced key and write the
result through `_write_value`; with any other `persist` re-raise the memory
miss.  Finally unpickle whichever bytes were obtained. -/
def readValue (env : Env) (cfg : Config) (st : CacheState) (rawKey : String) :
    ReadResult :=
  let key := cfg.cacheName ++ ":" ++ rawKey
  match readFromMemCache st key with
  | .ok pickledValue => ⟨finishLoad env key pickledValue, st, [], []⟩
  | .error _ =>
      if cfg.persist = some "disk" then
        match readFromDiskCache env st key with
        | (.ok pickledValue, st1) =>
            let st2 := writeToMemCache st1 key pickledValue
            ⟨finishLoad env key pickledValue, st2, [], [key]⟩
        | (.error .keyNotFound, st1) =>
            match env.query key with
            | none => ⟨.error .sourceError, st1, [key], [key]⟩
            | some value =>
                match writeValue env cfg st1 key value with
                | (.error e, st2) => ⟨.error e, st2, [key], [key]⟩
                | (.ok pickledValue, st2) =>
                    ⟨finishLoad env key pickledValue, st2, [key], [key]⟩
        | (.error e, st1) => ⟨.error e, st1, [], [key]⟩
      else ⟨.error .keyNotFound, st, [], []⟩

/-- Body of `MemoCache.clear`'s loop: `_remove_from_disk_cache` for each key
of the memory cache in order, stopping at the first escaping exception. -/
def clearLoop (env : Env) : List String → CacheState →
    Except CacheErr Unit × CacheState
  | [], st => (.ok (), st)
  | k :: ks, st =>
      match removeFromDiskCache env st k with
      | (.error e, st1) => (.error e, st1)
      | (.ok _, st1) => clearLoop env ks st1

/-- `MemoCache.clear`: under the memory lock, delete the disk file of every
key currently in the memory cache, then empty the memory cache. -/
def clear (env : Env) (st : CacheState) : Except CacheErr Unit × CacheState :=
  match clearLoop env (st.memCache.map Prod.fst) st with
  | (.error e, st1) => (.error e, st1)
  | (.ok _, st1) => (.ok (), { st1 with memCache := [] })

/-! ### Association-list lemmas -/

theorem assocLookup_insert_self (k : String) (v : Bytes)
    (l : List (String × Bytes)) : assocLookup k (assocInsert k v l) = some v := by
  simp [assocInsert, assocLookup]

theorem assocLookup_erase_self (k : String) (l : List (String × Bytes)) :
    assocLookup k (assocErase k l) = none := by
  induction l with
  | nil => rfl
  | cons hd tl ih =>
      obtain ⟨k2, v⟩ := hd
      by_cases h : k2 = k
      · simpa [assocErase, h] using ih
      · simpa [assocErase, assocLookup, h] using ih

theorem assocLookup_erase_ne (k2 k : String) (l : List (String × Bytes))
    (h : k2 ≠ k) : assocLookup k2 (assocErase k l) = assocLookup k2 l := by
  induction l with
  | nil => rfl
  | cons hd tl ih =>
      obtain ⟨k3, v⟩ := hd
      by_cases h3 : k3 = k
      · subst h3
        have hne : k3 ≠ k2 := fun hc => h hc.symm
        simp [assocErase, assocLookup, hne, ih]
      · by_cases h2 : k3 = k2
        · simp [assocErase, assocLookup, h3, h2, h]
        · simp [assocErase, assocLookup, h3, h2, ih]

theorem assocLookup_insert_ne (k2 k : String) (v : Bytes)
    (l : List (String × Bytes)) (h : k2 ≠ k) :
    assocLookup k2 (assocInsert k v l) = assocLookup k2 l := by
  have : k ≠ k2 := fun hc => h hc.symm
  simp [assocInsert, assocLookup, this, assocLookup_erase_ne k2 k l h]

theorem assocLookup_insert_isSome (p k : String) (v : Bytes)
    (l : List (String × Bytes)) (h : (assocLookup p l).isSome) :
    (assocLookup p (assocInsert k v l)).isSome := by
  by_cases hpk : p = k
  · subst hpk
    simp [assocLookup_insert_self]
  · rwa [assocLookup_insert_ne p k v l hpk]

theorem assocLookup_erase_none (p k : String) (l : List (String × Bytes))
    (h : assocLookup p l = none) : assocLookup p (assocErase k l) = none := by
  by_cases hpk : p = k
  · subst hpk
    exact assocLookup_erase_self p l
  · rwa [assocLookup_erase_ne p k l hpk]

/-! ### Lemmas about `ensureDir` and `getFilePath` -/

theorem ensureDir_memCache (env : Env) (st : CacheState) (d : String) :
    (ensureDir env st d).memCache = st.memCache := by
  simp only [ensureDir]
  split <;> rfl

theorem ensureDir_disk (env : Env) (st : CacheState) (d : String) :
    (ensureDir env st d).disk = st.disk := by
  simp only [ensureDir]
  split <;> rfl

theorem getFilePath_eq (env : Env) (st : CacheState) (key d f : String)
    (h : splitFirstColon key = some (d, f)) :
    getFilePath env st key =
      some (env.root ++ "/" ++ d ++ "/" ++ f ++ ".memo", ensureDir env st d) := by
  simp [getFilePath, h]

/-! ### Lemmas about splitting at the first separator -/

theorem splitCharAux_append (sep : Char) (a b : List Char) (h : sep ∉ a) :
    splitCharAux sep (a ++ sep :: b) = some (a, b) := by
  induction a with
  | nil => simp [splitCharAux]
  | cons c cs ih =>
      have hc : c ≠ sep := by
        intro hc
        exact h (hc ▸ List.mem_cons_self c cs)
      have hcs : sep ∉ cs := fun hm => h (List.mem_cons_of_mem c hm)
      simp [splitCharAux, hc, ih hcs]

theorem splitCharAux_eq (sep : Char) (l a b : List Char)
    (h : splitCharAux sep l = some (a, b)) : l = a ++ sep :: b ∧ sep ∉ a := by
  induction l generalizing a b with
  | nil => simp [splitCharAux] at h
  | cons c cs ih =>
      by_cases hc : c = sep
      · simp only [splitCharAux, if_pos hc, Option.some.injEq, Prod.mk.injEq] at h
        obtain ⟨ha, hb⟩ := h
        constructor
        · simp [← ha, ← hb, hc]
        · rw [← ha]
          exact List.not_mem_nil sep
      · simp only [splitCharAux, if_neg hc] at h
        cases hsub : splitCharAux sep cs with
        | none => rw [hsub] at h; simp at h
        | some ab =>
            obtain ⟨a2, b2⟩ := ab
            rw [hsub] at h
            simp at h
            obtain ⟨ha, hb⟩ := h
            obtain ⟨hcs, hna⟩ := ih a2 b2 hsub
            subst ha
            subst hb
            constructor
            · simp [hcs]
            · intro hm
              rcases List.mem_cons.mp hm with h1 | h2
              · exact hc h1.symm
              · exact hna h2

theorem append_sep_inj (sep : Char) (a x c y : List Char) (ha : sep ∉ a)
    (hc : sep ∉ c) (h : a ++ sep :: x = c ++ sep :: y) : a = c ∧ x = y := by
  induction a generalizing c with
  | nil =>
      cases c with
      | nil => simpa using h
      | cons c0 c2 =>
          simp at h
          obtain ⟨h0, _⟩ := h
          exact absurd (h0 ▸ List.mem_cons_self c0 c2) hc
  | cons a0 a2 ih =>
      cases c with
      | nil =>
          simp at h
          obtain ⟨h0, _⟩ := h
          exact absurd (h0 ▸ List.mem_cons_self a0 a2) ha
      | cons c0 c2 =>
          simp at h
          obtain ⟨h0, h2⟩ := h
          have ha2 : sep ∉ a2 := fun hm => ha (List.mem_cons_of_mem a0 hm)
          have hc2 : sep ∉ c2 := fun hm => hc (List.mem_cons_of_mem c0 hm)
          obtain ⟨hac, hxy⟩ := ih c2 ha2 hc2 h2
          exact ⟨by simp [h0, hac], hxy⟩

theorem data_append_sep (d f : String) : (d ++ ":" ++ f).data = d.data ++ ':' :: f.data := by
  simp [String.data_append]

theorem splitFirstColon_append (d f : String) (h : ':' ∉ d.data) :
    splitFirstColon (d ++ ":" ++ f) = some (d, f) := by
  unfold splitFirstColon
  rw [data_append_sep, splitCharAux_append ':' d.data f.data h]

theorem splitFirstColon_eq (s d f : String)
    (h : splitFirstColon s = some (d, f)) :
    s.data = d.data ++ ':' :: f.data ∧ ':' ∉ d.data := by
  unfold splitFirstColon at h
  cases hsub : splitCharAux ':' s.data with
  | none => rw [hsub] at h; simp at h
  | some ab =>
      obtain ⟨a, b⟩ := ab
      rw [hsub] at h
      simp at h
      obtain ⟨ha, hb⟩ := h
      obtain ⟨hs, hna⟩ := splitCharAux_eq ':' s.data a b hsub
      subst ha
      subst hb
      exact ⟨hs, hna⟩

theorem filePathOf_namespaced (root kind raw : String) (h : ':' ∉ kind.data) :
    filePathOf root (kind ++ ":" ++ raw) =
      some (root ++ "/" ++ kind ++ "/" ++ raw ++ ".memo") := by
  simp [filePathOf, splitFirstColon_append kind raw h]

theorem filePathOf_of_split (root key d f : String)
    (h : splitFirstColon key = some (d, f)) :
    filePathOf root key = some (root ++ "/" ++ d ++ "/" ++ f ++ ".memo") := by
  simp [filePathOf, h]

/-! ### Branch lemmas for `read_value` -/

theorem readValue_memHit (env : Env) (cfg : Config) (st : CacheState)
    (rawKey : String) (pv : Bytes)
    (hm : assocLookup (cfg.cacheName ++ ":" ++ rawKey) st.memCache = some pv) :
    readValue env cfg st rawKey =
      ⟨finishLoad env (cfg.cacheName ++ ":" ++ rawKey) pv, st, [], []⟩ := by
  simp [readValue, readFromMemCache, hm]

theorem readValue_noPersist (env : Env) (cfg : Config) (st : CacheState)
    (rawKey : String)
    (hm : assocLookup (cfg.cacheName ++ ":" ++ rawKey) st.memCache = none)
    (hp : cfg.persist ≠ some "disk") :
    readValue env cfg st rawKey = ⟨.error .keyNotFound, st, [], []⟩ := by
  simp [readValue, readFromMemCache, hm, hp]

theorem readValue_splitNone (env : Env) (cfg : Config) (st : CacheState)
    (rawKey : String)
    (hm : assocLookup (cfg.cacheName ++ ":" ++ rawKey) st.memCache = none)
    (hp : cfg.persist = some "disk")
    (hs : splitFirstColon (cfg.cacheName ++ ":" ++ rawKey) = none) :
    readValue env cfg st rawKey =
      ⟨.error .valueError, st, [], [cfg.cacheName ++ ":" ++ rawKey]⟩ := by
  simp [readValue, readFromMemCache, readFromDiskCache, getFilePath, hm, hp, hs]

theorem readValue_diskHit (env : Env) (cfg : Config) (st : CacheState)
    (rawKey d f : String) (pv : Bytes)
    (hm : assocLookup (cfg.cacheName ++ ":" ++ rawKey) st.memCache = none)
    (hp : cfg.persist = some "disk")
    (hs : splitFirstColon (cfg.cacheName ++ ":" ++ rawKey) = some (d, f))
    (hd : assocLookup (env.root ++ "/" ++ d ++ "/" ++ f ++ ".memo") st.disk = some pv)
    (hr : env.diskReadFails (env.root ++ "/" ++ d ++ "/" ++ f ++ ".memo") = false) :
    readValue env cfg st rawKey =
      ⟨finishLoad env (cfg.cacheName ++ ":" ++ rawKey) pv,
       writeToMemCache (ensureDir env st d) (cfg.cacheName ++ ":" ++ rawKey) pv,
       [], [cfg.cacheName ++ ":" ++ rawKey]⟩ := by
  simp [readValue, readFromMemCache, readFromDiskCache, hm, hp,
    getFilePath_eq env st _ d f hs, ensureDir_disk, hd, hr]

theorem readValue_diskReadFail (env : Env) (cfg : Config) (st : CacheState)
    (rawKey d f : String) (pv : Bytes)
    (hm : assocLookup (cfg.cacheName ++ ":" ++ rawKey) st.memCache = none)
    (hp : cfg.persist = some "disk")
    (hs : splitFirstColon (cfg.cacheName ++ ":" ++ rawKey) = some (d, f))
    (hd : assocLookup (env.root ++ "/" ++ d ++ "/" ++ f ++ ".memo") st.disk = some pv)
    (hr : env.diskReadFails (env.root ++ "/" ++ d ++ "/" ++ f ++ ".memo") = true) :
    readValue env cfg st rawKey =
      ⟨.error (.cacheError "Unable to read from cache"), ensureDir env st d,
       [], [cfg.cacheName ++ ":" ++ rawKey]⟩ := by
  simp [readValue, readFromMemCache, readFromDiskCache, hm, hp,
    getFilePath_eq env st _ d f hs, ensureDir_disk, hd, hr]

theorem readValue_fullMiss_queryFail (env : Env) (cfg : Config) (st : CacheState)
    (rawKey d f : String)
    (hm : assocLookup (cfg.cacheName ++ ":" ++ rawKey) st.memCache = none)
    (hp : cfg.persist = some "disk")
    (hs : splitFirstColon (cfg.cacheName ++ ":" ++ rawKey) = some (d, f))
    (hd : assocLookup (env.root ++ "/" ++ d ++ "/" ++ f ++ ".memo") st.disk = none)
    (hq : env.query (cfg.cacheName ++ ":" ++ rawKey) = none) :
    readValue env cfg st rawKey =
      ⟨.error .sourceError, ensureDir env st d,
       [cfg.cacheName ++ ":" ++ rawKey], [cfg.cacheName ++ ":" ++ rawKey]⟩ := by
  simp [readValue, readFromMemCache, readFromDiskCache, hm, hp,
    getFilePath_eq env st _ d f hs, ensureDir_disk, hd, hq]

theorem readValue_fullMiss_pickleFail (env : Env) (cfg : Config) (st : CacheState)
    (rawKey d f : String) (v : Val)
    (hm : assocLookup (cfg.cacheName ++ ":" ++ rawKey) st.memCache = none)
    (hp : cfg.persist = some "disk")
    (hs : splitFirstColon (cfg.cacheName ++ ":" ++ rawKey) = some (d, f))
    (hd : assocLookup (env.root ++ "/" ++ d ++ "/" ++ f ++ ".memo") st.disk = none)
    (hq : env.query (cfg.cacheName ++ ":" ++ rawKey) = some v)
    (hdu : env.dumps v = none) :
    readValue env cfg st rawKey =
      ⟨.error (.cacheError ("Failed to pickle " ++ (cfg.cacheName ++ ":" ++ rawKey))),
       ensureDir env st d,
       [cfg.cacheName ++ ":" ++ rawKey], [cfg.cacheName ++ ":" ++ rawKey]⟩ := by
  simp [readValue, readFromMemCache, readFromDiskCache, writeValue, hm, hp,
    getFilePath_eq env st _ d f hs, ensureDir_disk, hd, hq, hdu]

theorem ensureDir_mem_dirs (env : Env) (st : CacheState) (d : String) :
    (env.root ++ "/" ++ d) ∈ (ensureDir env st d).dirs := by
  simp only [ensureDir]
  split
  · assumption
  · exact List.mem_cons_self _ _

theorem ensureDir_of_mem (env : Env) (st : CacheState) (d : String)
    (h : (env.root ++ "/" ++ d) ∈ st.dirs) : ensureDir env st d = st := by
  simp [ensureDir, h]

theorem readValue_fullMiss_ok (env : Env) (cfg : Config) (st : CacheState)
    (rawKey d f : String) (v : Val) (pv : Bytes)
    (hm : assocLookup (cfg.cacheName ++ ":" ++ rawKey) st.memCache = none)
    (hp : cfg.persist = some "disk")
    (hs : splitFirstColon (cfg.cacheName ++ ":" ++ rawKey) = some (d, f))
    (hd : assocLookup (env.root ++ "/" ++ d ++ "/" ++ f ++ ".memo") st.disk = none)
    (hq : env.query (cfg.cacheName ++ ":" ++ rawKey) = some v)
    (hdu : env.dumps v = some pv)
    (hw : env.diskWriteFails (env.root ++ "/" ++ d ++ "/" ++ f ++ ".memo") = false) :
    readValue env cfg st rawKey =
      ⟨finishLoad env (cfg.cacheName ++ ":" ++ rawKey) pv,
       ⟨assocInsert (cfg.cacheName ++ ":" ++ rawKey) pv st.memCache,
        assocInsert (env.root ++ "/" ++ d ++ "/" ++ f ++ ".memo") pv st.disk,
        (ensureDir env st d).dirs⟩,
       [cfg.cacheName ++ ":" ++ rawKey], [cfg.cacheName ++ ":" ++ rawKey]⟩ := by
  have hdirs : ensureDir env
      (writeToMemCache (ensureDir env st d) (cfg.cacheName ++ ":" ++ rawKey) pv) d =
      writeToMemCache (ensureDir env st d) (cfg.cacheName ++ ":" ++ rawKey) pv :=
    ensureDir_of_mem env _ d (ensureDir_mem_dirs env st d)
  simp only [readValue, readFromMemCache, readFromDiskCache, writeValue,
    writeToDiskCache, hm, hp, getFilePath_eq env st _ d f hs,
    getFilePath_eq env _ _ d f hs, ensureDir_disk, hd, hq, hdu, hdirs, hw]
  simp [writeToMemCache, ensureDir_memCache, ensureDir_disk]

/-! ### Concrete fixtures used by counterexamples and witnesses -/

/-- A benign environment: pickling always succeeds (`dumps v = [v]`,
`loads` reads the head back), the Source always answers `7`, no disk
operation ever fails. -/
def pureEnv : Env where
  dumps := fun v => some [v]
  loads := fun b => b.head?
  query := fun _ => some 7
  root := "./cache"
  diskReadFails := fun _ => false
  diskWriteFails := fun _ => false
  writeLeftover := fun _ => none
  removeFails := fun _ => false

/-- Fresh cache: empty memory tier, empty disk, no directories yet. -/
def emptyState : CacheState := ⟨[], [], []⟩

/-- The configuration of `S3QueryCache` in `src/utils/cache/s3.py` with the
constructor default `persist="disk"`. -/
def diskCfg : Config := ⟨"S3Query", some "disk"⟩

/-- The same cache kind constructed with `persist=None` (persistence mode
`"none"`). -/
def noneCfg : Config := ⟨"S3Query", none⟩

/-! ### Claim C1 -/

/-- Claim C1, as stated, is false on the code: with persistence `"none"`
(`persist=None`) and a cold memory tier, `read_value("k")` raises
`CacheKeyNotFoundError` to its caller and never invokes `query`, even though
the Source capability is available and would answer (here `query` returns `7`
on every key).  The `NotFound` is surfaced by the memory miss alone. -/
theorem claim1_counterexample :
    (readValue pureEnv noneCfg emptyState "k").result = .error .keyNotFound ∧
    (readValue pureEnv noneCfg emptyState "k").queryCalls = [] ∧
    pureEnv.query "S3Query:k" = some 7 ∧ pureEnv.query "k" = some 7 := by
  decide

/-- Claim C1 (amended): when persistence mode is not `"disk"` and the
memory-tier lookup misses, `read_value` raises `CacheKeyNotFoundError` to its
caller without invoking the Source capability and without changing any state;
the fallthrough to Source happens only in the `persist == "disk"` branch. -/
theorem claim1_theorem (env : Env) (cfg : Config) (st : CacheState)
    (rawKey : String)
    (hp : cfg.persist ≠ some "disk")
    (hm : assocLookup (cfg.cacheName ++ ":" ++ rawKey) st.memCache = none) :
    (readValue env cfg st rawKey).result = .error .keyNotFound ∧
    (readValue env cfg st rawKey).state = st ∧
    (readValue env cfg st rawKey).queryCalls = [] ∧
    (readValue env cfg st rawKey).diskReads = [] := by
  rw [readValue_noPersist env cfg st rawKey hm hp]
  exact ⟨rfl, rfl, rfl, rfl⟩

/-- Witness for C1 (amended) at `persist=None`, kind `S3Query`, key `"k"`. -/
theorem claim1_witness :
    (readValue pureEnv noneCfg emptyState "k").result = .error .keyNotFound ∧
    (readValue pureEnv noneCfg emptyState "k").state = emptyState :=
  ⟨(claim1_theorem pureEnv noneCfg emptyState "k" (by decide) (by decide)).1,
   (claim1_theorem pureEnv noneCfg emptyState "k" (by decide) (by decide)).2.1⟩

/-! ### Claim C3 -/

/-- Claim C3, as stated, is false on the code: on a both-tier miss the
resolution succeeds through Source, but `self.query` is invoked with the
namespaced key `"S3Query:k"`, not with the raw key `"k"`. -/
theorem claim3_counterexample :
    (readValue pureEnv diskCfg emptyState "k").result = .ok 7 ∧
    (readValue pureEnv diskCfg emptyState "k").queryCalls = ["S3Query:k"] ∧
    ("S3Query:k" : String) ≠ "k" := by
  decide

/-- Claim C3 (amended): on a both-tier miss, `query` is invoked exactly once
per resolution, with the namespaced key `f"{cache_name}:{rawKey}"` (not the
raw key).  This holds whatever `query` and `pickle.dumps` then do. -/
theorem claim3_theorem (env : Env) (cfg : Config) (st : CacheState)
    (rawKey d f : String)
    (hm : assocLookup (cfg.cacheName ++ ":" ++ rawKey) st.memCache = none)
    (hp : cfg.persist = some "disk")
    (hs : splitFirstColon (cfg.cacheName ++ ":" ++ rawKey) = some (d, f))
    (hd : assocLookup (env.root ++ "/" ++ d ++ "/" ++ f ++ ".memo") st.disk = none) :
    (readValue env cfg st rawKey).queryCalls = [cfg.cacheName ++ ":" ++ rawKey] := by
  cases hq : env.query (cfg.cacheName ++ ":" ++ rawKey) with
  | none =>
      rw [readValue_fullMiss_queryFail env cfg st rawKey d f hm hp hs hd hq]
  | some v =>
      cases hdu : env.dumps v with
      | none =>
          rw [readValue_fullMiss_pickleFail env cfg st rawKey d f v hm hp hs hd hq hdu]
      | some pv =>
          cases hw : env.diskWriteFails (env.root ++ "/" ++ d ++ "/" ++ f ++ ".memo") with
          | false =>
              rw [readValue_fullMiss_ok env cfg st rawKey d f v pv hm hp hs hd hq hdu hw]
          | true =>
              simp [readValue, readFromMemCache, readFromDiskCache, writeValue,
                writeToDiskCache, hm, hp, getFilePath_eq env st _ d f hs,
                getFilePath_eq env _ _ d f hs, ensureDir_disk, hd, hq, hdu, hw]

/-- Witness for C3 (amended): the full-miss read of `"k"` calls `query`
exactly once, with `"S3Query:k"`. -/
theorem claim3_witness :
    (readValue pureEnv diskCfg emptyState "k").queryCalls = ["S3Query:k"] :=
  claim3_theorem pureEnv diskCfg emptyState "k" "S3Query" "k"
    (by decide) (by decide) (by decide) (by decide)

/-! ### State lemmas for the write-through path -/

theorem getFilePath_snd (env : Env) (st : CacheState) (key p : String)
    (st1 : CacheState) (h : getFilePath env st key = some (p, st1)) :
    st1.memCache = st.memCache ∧ st1.disk = st.disk := by
  simp only [getFilePath] at h
  cases hs : splitFirstColon key with
  | none => simp [hs] at h
  | some df =>
      obtain ⟨d, f⟩ := df
      simp only [hs, Option.some.injEq, Prod.mk.injEq] at h
      rw [← h.2]
      exact ⟨ensureDir_memCache env st d, ensureDir_disk env st d⟩

theorem writeToDiskCache_snd_memCache (env : Env) (st : CacheState)
    (key : String) (pv : Bytes) :
    (writeToDiskCache env st key pv).2.memCache = st.memCache := by
  unfold writeToDiskCache
  cases hg : getFilePath env st key with
  | none => rfl
  | some pst =>
      obtain ⟨path, st1⟩ := pst
      have hst1 := getFilePath_snd env st key path st1 hg
      cases hw : env.diskWriteFails path with
      | false => simp [hw, hst1.1]
      | true =>
          cases hl : env.writeLeftover path with
          | none => cases hr : env.removeFails path <;> simp [hw, hl, hr, hst1.1]
          | some b => cases hr : env.removeFails path <;> simp [hw, hl, hr, hst1.1]

theorem writeValue_memCache (env : Env) (cfg : Config) (st : CacheState)
    (key : String) (v : Val) (pv : Bytes) (hdu : env.dumps v = some pv) :
    (writeValue env cfg st key v).2.memCache = assocInsert key pv st.memCache := by
  unfold writeValue
  simp only [hdu]
  by_cases hp : cfg.persist = some "disk"
  · simp only [if_pos hp]
    cases hwd : writeToDiskCache env (writeToMemCache st key pv) key pv with
    | mk res st2 =>
        have hmem : st2.memCache = assocInsert key pv st.memCache := by
          have hpre := writeToDiskCache_snd_memCache env (writeToMemCache st key pv) key pv
          rw [hwd] at hpre
          exact hpre
        cases res <;> simpa using hmem
  · simp [hp, writeToMemCache]

/-! ### Claim C4 -/

/-- Claim C4 (confirmed): with disk persistence enabled, `read_value`
resolves in tier order.  (i) A memory hit returns the deserialization of the
memory bytes, touching nothing.  (ii) On a memory miss, a disk hit promotes
the disk bytes into the memory tier and returns their deserialization,
without invoking Source.  (iii) When both tiers miss, Source is invoked
exactly once, its result serialized, the serialized bytes written through to
the memory tier and the disk tier, and their deserialization returned. -/
theorem claim4_theorem (env : Env) (cfg : Config) (st : CacheState)
    (rawKey d f : String) (pv : Bytes) (v : Val)
    (hp : cfg.persist = some "disk")
    (hs : splitFirstColon (cfg.cacheName ++ ":" ++ rawKey) = some (d, f)) :
    (assocLookup (cfg.cacheName ++ ":" ++ rawKey) st.memCache = some pv →
      readValue env cfg st rawKey =
        ⟨finishLoad env (cfg.cacheName ++ ":" ++ rawKey) pv, st, [], []⟩) ∧
    (assocLookup (cfg.cacheName ++ ":" ++ rawKey) st.memCache = none →
     assocLookup (env.root ++ "/" ++ d ++ "/" ++ f ++ ".memo") st.disk = some pv →
     env.diskReadFails (env.root ++ "/" ++ d ++ "/" ++ f ++ ".memo") = false →
      readValue env cfg st rawKey =
        ⟨finishLoad env (cfg.cacheName ++ ":" ++ rawKey) pv,
         writeToMemCache (ensureDir env st d) (cfg.cacheName ++ ":" ++ rawKey) pv,
         [], [cfg.cacheName ++ ":" ++ rawKey]⟩) ∧
    (assocLookup (cfg.cacheName ++ ":" ++ rawKey) st.memCache = none →
     assocLookup (env.root ++ "/" ++ d ++ "/" ++ f ++ ".memo") st.disk = none →
     env.query (cfg.cacheName ++ ":" ++ rawKey) = some v →
     env.dumps v = some pv →
     env.diskWriteFails (env.root ++ "/" ++ d ++ "/" ++ f ++ ".memo") = false →
      readValue env cfg st rawKey =
        ⟨finishLoad env (cfg.cacheName ++ ":" ++ rawKey) pv,
         ⟨assocInsert (cfg.cacheName ++ ":" ++ rawKey) pv st.memCache,
          assocInsert (env.root ++ "/" ++ d ++ "/" ++ f ++ ".memo") pv st.disk,
          (ensureDir env st d).dirs⟩,
         [cfg.cacheName ++ ":" ++ rawKey], [cfg.cacheName ++ ":" ++ rawKey]⟩) := by
  refine ⟨?_, ?_, ?_⟩
  · intro hm
    exact readValue_memHit env cfg st rawKey pv hm
  · intro hm hd hr
    exact readValue_diskHit env cfg st rawKey d f pv hm hp hs hd hr
  · intro hm hd hq hdu hw
    exact readValue_fullMiss_ok env cfg st rawKey d f v pv hm hp hs hd hq hdu hw

/-- Witness for C4, branch (iii): a cold read of `"k"` invokes Source once
and writes `[7]` through to both tiers. -/
theorem claim4_witness :
    readValue pureEnv diskCfg emptyState "k" =
      ⟨finishLoad pureEnv ("S3Query" ++ ":" ++ "k") [7],
       ⟨assocInsert ("S3Query" ++ ":" ++ "k") [7] emptyState.memCache,
        assocInsert ("./cache" ++ "/" ++ "S3Query" ++ "/" ++ "k" ++ ".memo") [7]
          emptyState.disk,
        (ensureDir pureEnv emptyState "S3Query").dirs⟩,
       ["S3Query" ++ ":" ++ "k"], ["S3Query" ++ ":" ++ "k"]⟩ :=
  (claim4_theorem pureEnv diskCfg emptyState "k" "S3Query" "k" [7] 7 rfl
      (by decide)).2.2 (by decide) (by decide) (by decide) (by decide) (by decide)

/-! ### Claim C5 -/

/-- Claim C5 (confirmed): round-trip.  For any value `v` that serializes to
bytes `pv` (and deserializes back to `v`), a write-through of `v` under the
namespaced key followed by `read_value` of the raw key returns `v`.  This
holds for every persistence mode and even when the disk write step of the
write-through fails, because `_write_value` populates the memory tier first
and `read_value` then hits it. -/
theorem claim5_theorem (env : Env) (cfg : Config) (st : CacheState)
    (rawKey : String) (v : Val) (pv : Bytes)
    (hdu : env.dumps v = some pv) (hl : env.loads pv = some v) :
    (readValue env cfg
        (writeValue env cfg st (cfg.cacheName ++ ":" ++ rawKey) v).2
        rawKey).result = .ok v := by
  have hmem : assocLookup (cfg.cacheName ++ ":" ++ rawKey)
      (writeValue env cfg st (cfg.cacheName ++ ":" ++ rawKey) v).2.memCache
        = some pv := by
    rw [writeValue_memCache env cfg st (cfg.cacheName ++ ":" ++ rawKey) v pv hdu]
    exact assocLookup_insert_self (cfg.cacheName ++ ":" ++ rawKey) pv st.memCache
  rw [readValue_memHit env cfg
    (writeValue env cfg st (cfg.cacheName ++ ":" ++ rawKey) v).2 rawKey pv hmem]
  simp [finishLoad, hl]

/-- Witness for C5: writing `7` under `"S3Query:k"` and reading `"k"` back
returns `7`. -/
theorem claim5_witness :
    (readValue pureEnv diskCfg
        (writeValue pureEnv diskCfg emptyState ("S3Query" ++ ":" ++ "k") 7).2
        "k").result = .ok 7 :=
  claim5_theorem pureEnv diskCfg emptyState "k" 7 [7] rfl rfl

/-! ### Claim C10 -/

/-- Claim C10 (confirmed): on a memory miss with a disk hit, the disk bytes
are promoted into the memory tier before deserialization is attempted.  If
they cannot be unpickled, the first read surfaces
`CacheError("Failed to unpickle …")` while the undecodable bytes remain in
the memory tier, and a subsequent read of the same key hits memory, fails
the same way, leaves the state unchanged, and consults neither disk nor
Source. -/
theorem claim10_theorem (env : Env) (cfg : Config) (st : CacheState)
    (rawKey d f : String) (pv : Bytes)
    (hm : assocLookup (cfg.cacheName ++ ":" ++ rawKey) st.memCache = none)
    (hp : cfg.persist = some "disk")
    (hs : splitFirstColon (cfg.cacheName ++ ":" ++ rawKey) = some (d, f))
    (hd : assocLookup (env.root ++ "/" ++ d ++ "/" ++ f ++ ".memo") st.disk = some pv)
    (hr : env.diskReadFails (env.root ++ "/" ++ d ++ "/" ++ f ++ ".memo") = false)
    (hl : env.loads pv = none) :
    (readValue env cfg st rawKey).result
      = .error (.cacheError ("Failed to unpickle " ++ (cfg.cacheName ++ ":" ++ rawKey))) ∧
    assocLookup (cfg.cacheName ++ ":" ++ rawKey)
      (readValue env cfg st rawKey).state.memCache = some pv ∧
    (readValue env cfg (readValue env cfg st rawKey).state rawKey).result
      = .error (.cacheError ("Failed to unpickle " ++ (cfg.cacheName ++ ":" ++ rawKey))) ∧
    (readValue env cfg (readValue env cfg st rawKey).state rawKey).state
      = (readValue env cfg st rawKey).state ∧
    (readValue env cfg (readValue env cfg st rawKey).state rawKey).queryCalls = [] ∧
    (readValue env cfg (readValue env cfg st rawKey).state rawKey).diskReads = [] := by
  have h1 := readValue_diskHit env cfg st rawKey d f pv hm hp hs hd hr
  have hm2 : assocLookup (cfg.cacheName ++ ":" ++ rawKey)
      (readValue env cfg st rawKey).state.memCache = some pv := by
    rw [h1]
    exact assocLookup_insert_self (cfg.cacheName ++ ":" ++ rawKey) pv
      (ensureDir env st d).memCache
  have h2 := readValue_memHit env cfg (readValue env cfg st rawKey).state rawKey pv hm2
  refine ⟨?_, hm2, ?_, ?_, ?_, ?_⟩
  · rw [h1]
    simp [finishLoad, hl]
  · rw [h2]
    simp [finishLoad, hl]
  · rw [h2]
  · rw [h2]
  · rw [h2]

/-- Witness for C10: disk holds the empty payload `[]`, which
`pureEnv.loads` (`List.head?`) cannot decode; the first read surfaces the
unpickle error yet promotes `[]` into memory, and the second read repeats
the failure without calling `query`. -/
theorem claim10_witness :
    (readValue pureEnv diskCfg
        ⟨[], [("./cache" ++ "/" ++ "S3Query" ++ "/" ++ "k" ++ ".memo", [])], []⟩
        "k").result
      = .error (.cacheError ("Failed to unpickle " ++ ("S3Query" ++ ":" ++ "k"))) ∧
    (readValue pureEnv diskCfg
        (readValue pureEnv diskCfg
          ⟨[], [("./cache" ++ "/" ++ "S3Query" ++ "/" ++ "k" ++ ".memo", [])], []⟩
          "k").state "k").queryCalls = [] := by
  have h := claim10_theorem pureEnv diskCfg
    ⟨[], [("./cache" ++ "/" ++ "S3Query" ++ "/" ++ "k" ++ ".memo", [])], []⟩
    "k" "S3Query" "k" [] (by decide) rfl (by decide) (by decide) (by decide) rfl
  exact ⟨h.1, h.2.2.2.2.1⟩

/-! ### Claim C2 -/

/-- Environment in which every disk write fails; the failed write leaves no
file behind and its cleanup succeeds. -/
def failWriteEnv : Env := { pureEnv with diskWriteFails := fun _ => true }

/-- Claim C2, as stated, is false on the code: `_write_value` populates the
memory tier *before* attempting the disk write, so a read whose disk write
step fails completes (with `CacheError`) in a state where the memory tier
holds the value but the disk does not. -/
theorem claim2_counterexample :
    (readValue failWriteEnv diskCfg emptyState "k").result
      = .error (.cacheError "Unable to write to cache") ∧
    assocLookup "S3Query:k"
      (readValue failWriteEnv diskCfg emptyState "k").state.memCache = some [7] ∧
    assocLookup "./cache/S3Query/k.memo"
      (readValue failWriteEnv diskCfg emptyState "k").state.disk = none := by
  decide

/-- The C2 invariant: every key held by the memory tier has a derivable disk
path at which some disk file exists. -/
def MemDiskInv (env : Env) (st : CacheState) : Prop :=
  ∀ k, (assocLookup k st.memCache).isSome = true →
    ∃ p, filePathOf env.root k = some p ∧ (assocLookup p st.disk).isSome = true

theorem memDiskInv_of_components (env : Env) (st st2 : CacheState)
    (hmem : st2.memCache = st.memCache) (hdisk : st2.disk = st.disk)
    (hinv : MemDiskInv env st) : MemDiskInv env st2 := by
  intro k hk
  rw [hmem] at hk
  obtain ⟨p, hp1, hp2⟩ := hinv k hk
  exact ⟨p, hp1, by rw [hdisk]; exact hp2⟩

theorem memDiskInv_promote (env : Env) (st st2 : CacheState) (key p : String)
    (pv : Bytes)
    (hmem : st2.memCache = assocInsert key pv st.memCache)
    (hdisk : st2.disk = st.disk)
    (hpath : filePathOf env.root key = some p)
    (hdiskSome : (assocLookup p st.disk).isSome = true)
    (hinv : MemDiskInv env st) : MemDiskInv env st2 := by
  intro k hk
  rw [hmem] at hk
  by_cases hkey : k = key
  · subst hkey
    exact ⟨p, hpath, by rw [hdisk]; exact hdiskSome⟩
  · rw [assocLookup_insert_ne k key pv st.memCache hkey] at hk
    obtain ⟨q, hq1, hq2⟩ := hinv k hk
    exact ⟨q, hq1, by rw [hdisk]; exact hq2⟩

theorem memDiskInv_writeThrough (env : Env) (st st2 : CacheState) (key p : String)
    (pv : Bytes)
    (hmem : st2.memCache = assocInsert key pv st.memCache)
    (hdisk : st2.disk = assocInsert p pv st.disk)
    (hpath : filePathOf env.root key = some p)
    (hinv : MemDiskInv env st) : MemDiskInv env st2 := by
  intro k hk
  rw [hmem] at hk
  by_cases hkey : k = key
  · subst hkey
    refine ⟨p, hpath, ?_⟩
    rw [hdisk, assocLookup_insert_self]
    rfl
  · rw [assocLookup_insert_ne k key pv st.memCache hkey] at hk
    obtain ⟨q, hq1, hq2⟩ := hinv k hk
    refine ⟨q, hq1, ?_⟩
    rw [hdisk]
    exact assocLookup_insert_isSome q p pv st.disk hq2

/-- Claim C2 (amended): with `persist="disk"`, the invariant "every key the
memory tier holds also has its disk file" is preserved by `read_value` for
every read whose disk-write step does not fail.  (The counterexample shows
it is *not* preserved when the disk write fails: memory is populated first
and retains the value.) -/
theorem claim2_theorem (env : Env) (cfg : Config) (st : CacheState)
    (rawKey : String)
    (hp : cfg.persist = some "disk")
    (hw : ∀ p, env.diskWriteFails p = false)
    (hinv : MemDiskInv env st) :
    MemDiskInv env (readValue env cfg st rawKey).state := by
  cases hm : assocLookup (cfg.cacheName ++ ":" ++ rawKey) st.memCache with
  | some pv =>
      exact memDiskInv_of_components env st (readValue env cfg st rawKey).state
        (by rw [readValue_memHit env cfg st rawKey pv hm])
        (by rw [readValue_memHit env cfg st rawKey pv hm]) hinv
  | none =>
      cases hs : splitFirstColon (cfg.cacheName ++ ":" ++ rawKey) with
      | none =>
          exact memDiskInv_of_components env st (readValue env cfg st rawKey).state
            (by rw [readValue_splitNone env cfg st rawKey hm hp hs])
            (by rw [readValue_splitNone env cfg st rawKey hm hp hs]) hinv
      | some df =>
          obtain ⟨d, f⟩ := df
          cases hd : assocLookup (env.root ++ "/" ++ d ++ "/" ++ f ++ ".memo") st.disk with
          | some pv =>
              cases hr : env.diskReadFails (env.root ++ "/" ++ d ++ "/" ++ f ++ ".memo") with
              | true =>
                  exact memDiskInv_of_components env st (readValue env cfg st rawKey).state
                    (by rw [readValue_diskReadFail env cfg st rawKey d f pv hm hp hs hd hr]
                        exact ensureDir_memCache env st d)
                    (by rw [readValue_diskReadFail env cfg st rawKey d f pv hm hp hs hd hr]
                        exact ensureDir_disk env st d) hinv
              | false =>
                  refine memDiskInv_promote env st (readValue env cfg st rawKey).state
                    (cfg.cacheName ++ ":" ++ rawKey)
                    (env.root ++ "/" ++ d ++ "/" ++ f ++ ".memo") pv
                    ?_ ?_ (filePathOf_of_split env.root _ d f hs) (by rw [hd]; rfl) hinv
                  · rw [readValue_diskHit env cfg st rawKey d f pv hm hp hs hd hr]
                    show assocInsert _ pv (ensureDir env st d).memCache = _
                    rw [ensureDir_memCache]
                  · rw [readValue_diskHit env cfg st rawKey d f pv hm hp hs hd hr]
                    exact ensureDir_disk env st d
          | none =>
              cases hq : env.query (cfg.cacheName ++ ":" ++ rawKey) with
              | none =>
                  exact memDiskInv_of_components env st (readValue env cfg st rawKey).state
                    (by rw [readValue_fullMiss_queryFail env cfg st rawKey d f hm hp hs hd hq]
                        exact ensureDir_memCache env st d)
                    (by rw [readValue_fullMiss_queryFail env cfg st rawKey d f hm hp hs hd hq]
                        exact ensureDir_disk env st d) hinv
              | some v =>
                  cases hdu : env.dumps v with
                  | none =>
                      exact memDiskInv_of_components env st (readValue env cfg st rawKey).state
                        (by rw [readValue_fullMiss_pickleFail env cfg st rawKey d f v hm hp hs hd hq hdu]
                            exact ensureDir_memCache env st d)
                        (by rw [readValue_fullMiss_pickleFail env cfg st rawKey d f v hm hp hs hd hq hdu]
                            exact ensureDir_disk env st d) hinv
                  | some pv =>
                      refine memDiskInv_writeThrough env st (readValue env cfg st rawKey).state
                        (cfg.cacheName ++ ":" ++ rawKey)
                        (env.root ++ "/" ++ d ++ "/" ++ f ++ ".memo") pv
                        ?_ ?_ (filePathOf_of_split env.root _ d f hs) hinv
                      · rw [readValue_fullMiss_ok env cfg st rawKey d f v pv hm hp hs hd hq hdu
                          (hw (env.root ++ "/" ++ d ++ "/" ++ f ++ ".memo"))]
                      · rw [readValue_fullMiss_ok env cfg st rawKey d f v pv hm hp hs hd hq hdu
                          (hw (env.root ++ "/" ++ d ++ "/" ++ f ++ ".memo"))]

/-- Witness for C2 (amended): starting from the empty cache (which satisfies
the invariant vacuously), a cold read under a never-failing disk preserves
the invariant. -/
theorem claim2_witness :
    MemDiskInv pureEnv (readValue pureEnv diskCfg emptyState "k").state := by
  have hinv : MemDiskInv pureEnv emptyState := by
    intro k hk
    simp [emptyState, assocLookup] at hk
  exact claim2_theorem pureEnv diskCfg emptyState "k" rfl (fun _ => rfl) hinv

/-! ### Claim C7 -/

/-- Environment in which disk writes fail leaving a zero-byte file, and the
cleanup `os.remove` fails too. -/
def leftoverEnv : Env :=
  { pureEnv with
      diskWriteFails := fun _ => true
      writeLeftover := fun _ => some []
      removeFails := fun _ => true }

/-- Claim C7, as stated, is false on the code: the cleanup after a failed
write is best-effort (`os.remove` errors are swallowed), so when the removal
itself fails, the zero-byte file is still at the key's path when the
`CacheError` is surfaced. -/
theorem claim7_counterexample :
    (writeToDiskCache leftoverEnv emptyState "S3Query:k" [7]).1
      = .error (.cacheError "Unable to write to cache") ∧
    assocLookup "./cache/S3Query/k.memo"
      (writeToDiskCache leftoverEnv emptyState "S3Query:k" [7]).2.disk
      = some [] := by
  decide

/-- Claim C7 (amended): on any disk-write failure a best-effort removal of
the key's path precedes the surfaced `CacheError`; whenever that removal
does not itself fail, no file (zero-byte, truncated or otherwise) remains at
the path. -/
theorem claim7_theorem (env : Env) (st : CacheState) (key : String)
    (pv : Bytes) (d f : String)
    (hs : splitFirstColon key = some (d, f))
    (hw : env.diskWriteFails (env.root ++ "/" ++ d ++ "/" ++ f ++ ".memo") = true)
    (hrm : env.removeFails (env.root ++ "/" ++ d ++ "/" ++ f ++ ".memo") = false) :
    (writeToDiskCache env st key pv).1
      = .error (.cacheError "Unable to write to cache") ∧
    assocLookup (env.root ++ "/" ++ d ++ "/" ++ f ++ ".memo")
      (writeToDiskCache env st key pv).2.disk = none := by
  simp only [writeToDiskCache, getFilePath_eq env st key d f hs, hw]
  cases hl : env.writeLeftover (env.root ++ "/" ++ d ++ "/" ++ f ++ ".memo") with
  | none => simp [hl, hrm, assocLookup_erase_self]
  | some b => simp [hl, hrm, assocLookup_erase_self]

/-- Witness for C7 (amended): with a failing write but working `os.remove`,
the failed write surfaces the error and leaves no file at the path. -/
theorem claim7_witness :
    (writeToDiskCache failWriteEnv emptyState "S3Query:k" [7]).1
      = .error (.cacheError "Unable to write to cache") ∧
    assocLookup ("./cache" ++ "/" ++ "S3Query" ++ "/" ++ "k" ++ ".memo")
      (writeToDiskCache failWriteEnv emptyState "S3Query:k" [7]).2.disk = none :=
  claim7_theorem failWriteEnv emptyState "S3Query:k" [7] "S3Query" "k"
    (by decide) rfl rfl

/-! ### Claim C8 -/

/-- Environment in which every disk read of an existing file fails with an
error other than `FileNotFoundError`, while pickling and unpickling always
succeed. -/
def failReadEnv : Env := { pureEnv with diskReadFails := fun _ => true }

/-- A state whose disk holds a perfectly decodable payload for `"S3Query:k"`
and whose memory tier is empty. -/
def diskOnlyState : CacheState := ⟨[], [("./cache/S3Query/k.memo", [5])], []⟩

/-- Claim C8, as stated, is false on the code: `CacheError` is not raised
*exactly* on serialization failures — here a read raises `CacheError`
("Unable to read from cache") although the bytes on disk deserialize fine
(`loads [5] = some 5`) and pickling is total (`dumps 7 = some [7]`); the
cause is a disk I/O failure, not serialization. -/
theorem claim8_counterexample :
    (readValue failReadEnv diskCfg diskOnlyState "k").result
      = .error (.cacheError "Unable to read from cache") ∧
    failReadEnv.loads [5] = some 5 ∧
    failReadEnv.dumps 7 = some [7] := by
  decide

/-- Claim C8 (amended): `read_value` raises `CacheError` whenever the value
returned by Source cannot be pickled, and whenever the bytes obtained from
the memory tier or from the disk tier cannot be unpickled — the error is
surfaced to the caller, never replaced by a default value.  (`CacheError` is
however not exclusive to serialization failures: disk I/O failures raise it
too, as the counterexample shows.) -/
theorem claim8_theorem (env : Env) (cfg : Config) (st : CacheState)
    (rawKey d f : String) (pv : Bytes) (v : Val)
    (hs : splitFirstColon (cfg.cacheName ++ ":" ++ rawKey) = some (d, f)) :
    (assocLookup (cfg.cacheName ++ ":" ++ rawKey) st.memCache = some pv →
     env.loads pv = none →
      (readValue env cfg st rawKey).result
        = .error (.cacheError ("Failed to unpickle " ++ (cfg.cacheName ++ ":" ++ rawKey)))) ∧
    (cfg.persist = some "disk" →
     assocLookup (cfg.cacheName ++ ":" ++ rawKey) st.memCache = none →
     assocLookup (env.root ++ "/" ++ d ++ "/" ++ f ++ ".memo") st.disk = some pv →
     env.diskReadFails (env.root ++ "/" ++ d ++ "/" ++ f ++ ".memo") = false →
     env.loads pv = none →
      (readValue env cfg st rawKey).result
        = .error (.cacheError ("Failed to unpickle " ++ (cfg.cacheName ++ ":" ++ rawKey)))) ∧
    (cfg.persist = some "disk" →
     assocLookup (cfg.cacheName ++ ":" ++ rawKey) st.memCache = none →
     assocLookup (env.root ++ "/" ++ d ++ "/" ++ f ++ ".memo") st.disk = none →
     env.query (cfg.cacheName ++ ":" ++ rawKey) = some v →
     env.dumps v = none →
      (readValue env cfg st rawKey).result
        = .error (.cacheError ("Failed to pickle " ++ (cfg.cacheName ++ ":" ++ rawKey)))) := by
  refine ⟨?_, ?_, ?_⟩
  · intro hm hl
    rw [readValue_memHit env cfg st rawKey pv hm]
    simp [finishLoad, hl]
  · intro hp hm hd hr hl
    rw [readValue_diskHit env cfg st rawKey d f pv hm hp hs hd hr]
    simp [finishLoad, hl]
  · intro hp hm hd hq hdu
    rw [readValue_fullMiss_pickleFail env cfg st rawKey d f v hm hp hs hd hq hdu]

/-- Witness for C8 (amended), first conjunct: undecodable bytes `[]` in the
memory tier surface the unpickle `CacheError`. -/
theorem claim8_witness :
    (readValue pureEnv diskCfg ⟨[("S3Query:k", [])], [], []⟩ "k").result
      = .error (.cacheError ("Failed to unpickle " ++ ("S3Query" ++ ":" ++ "k"))) :=
  (claim8_theorem pureEnv diskCfg ⟨[("S3Query:k", [])], [], []⟩ "k" "S3Query" "k"
      [] 0 (by decide)).1 (by decide) rfl

/-! ### Lemmas about `clear` -/

theorem removeFromDiskCache_fst (env : Env) (st : CacheState) (k d f : String)
    (hs : splitFirstColon k = some (d, f)) :
    (removeFromDiskCache env st k).1 = .ok () := by
  simp only [removeFromDiskCache, getFilePath_eq env st k d f hs]
  cases hd : assocLookup (env.root ++ "/" ++ d ++ "/" ++ f ++ ".memo")
      (ensureDir env st d).disk with
  | none => simp [hd]
  | some b =>
      simp only [hd]
      split <;> rfl

theorem removeFromDiskCache_disk_none (env : Env) (st : CacheState)
    (k p : String) (h : assocLookup p st.disk = none) :
    assocLookup p (removeFromDiskCache env st k).2.disk = none := by
  unfold removeFromDiskCache
  cases hg : getFilePath env st k with
  | none => simpa using h
  | some pst =>
      obtain ⟨path, st1⟩ := pst
      have hdisk := (getFilePath_snd env st k path st1 hg).2
      have h1 : assocLookup p st1.disk = none := by rw [hdisk]; exact h
      cases hd : assocLookup path st1.disk with
      | none => simpa [hd] using h1
      | some b =>
          cases hr : env.removeFails path with
          | true => simpa [hd, hr] using h1
          | false => simpa [hd, hr] using assocLookup_erase_none p path st1.disk h1

theorem removeFromDiskCache_own (env : Env) (st : CacheState) (k d f : String)
    (hs : splitFirstColon k = some (d, f))
    (hrm : env.removeFails (env.root ++ "/" ++ d ++ "/" ++ f ++ ".memo") = false) :
    assocLookup (env.root ++ "/" ++ d ++ "/" ++ f ++ ".memo")
      (removeFromDiskCache env st k).2.disk = none := by
  simp only [removeFromDiskCache, getFilePath_eq env st k d f hs]
  cases hd : assocLookup (env.root ++ "/" ++ d ++ "/" ++ f ++ ".memo")
      (ensureDir env st d).disk with
  | none => simpa [hd, ensureDir_disk] using (by rw [← ensureDir_disk env st d]; exact hd)
  | some b => simp [hd, hrm, assocLookup_erase_self]

theorem clearLoop_disk_none (env : Env) (ks : List String) (st : CacheState)
    (p : String) (h : assocLookup p st.disk = none) :
    assocLookup p (clearLoop env ks st).2.disk = none := by
  induction ks generalizing st with
  | nil => exact h
  | cons k0 ks ih =>
      simp only [clearLoop]
      cases hrm : removeFromDiskCache env st k0 with
      | mk res st1 =>
          have h1 : assocLookup p st1.disk = none := by
            have h2 := removeFromDiskCache_disk_none env st k0 p h
            rw [hrm] at h2
            exact h2
          cases res with
          | error e => exact h1
          | ok u => exact ih st1 h1

theorem clearLoop_fst_ok (env : Env) (ks : List String) (st : CacheState)
    (hks : ∀ k ∈ ks, ∃ d f, splitFirstColon k = some (d, f)) :
    (clearLoop env ks st).1 = .ok () := by
  induction ks generalizing st with
  | nil => rfl
  | cons k0 ks ih =>
      obtain ⟨d0, f0, hs0⟩ := hks k0 (List.mem_cons_self k0 ks)
      simp only [clearLoop]
      cases hrm : removeFromDiskCache env st k0 with
      | mk res st1 =>
          have hres : res = .ok () := by
            have h2 := removeFromDiskCache_fst env st k0 d0 f0 hs0
            rw [hrm] at h2
            exact h2
          subst hres
          exact ih st1 (fun k hk => hks k (List.mem_cons_of_mem k0 hk))

theorem clearLoop_removes (env : Env) (ks : List String) (st : CacheState)
    (k d f : String)
    (hk : k ∈ ks)
    (hks : ∀ k2 ∈ ks, ∃ d2 f2, splitFirstColon k2 = some (d2, f2))
    (hs : splitFirstColon k = some (d, f))
    (hrm : env.removeFails (env.root ++ "/" ++ d ++ "/" ++ f ++ ".memo") = false) :
    assocLookup (env.root ++ "/" ++ d ++ "/" ++ f ++ ".memo")
      (clearLoop env ks st).2.disk = none := by
  induction ks generalizing st with
  | nil => cases hk
  | cons k0 ks ih =>
      obtain ⟨d0, f0, hs0⟩ := hks k0 (List.mem_cons_self k0 ks)
      simp only [clearLoop]
      cases hrm0 : removeFromDiskCache env st k0 with
      | mk res st1 =>
          have hres : res = .ok () := by
            have h2 := removeFromDiskCache_fst env st k0 d0 f0 hs0
            rw [hrm0] at h2
            exact h2
          subst hres
          rcases List.mem_cons.mp hk with hk0 | hkrest
          · subst hk0
            have h1 : assocLookup (env.root ++ "/" ++ d ++ "/" ++ f ++ ".memo")
                st1.disk = none := by
              have h2 := removeFromDiskCache_own env st k d f hs hrm
              rw [hrm0] at h2
              exact h2
            exact clearLoop_disk_none env ks st1 _ h1
          · exact ih st1 hkrest (fun k2 hk2 => hks k2 (List.mem_cons_of_mem k0 hk2))

/-! ### Claim C6 -/

/-- Environment in which `os.remove` of an existing file always fails (the
failure is logged and swallowed by `_remove_from_disk_cache`). -/
def failRemoveEnv : Env := { pureEnv with removeFails := fun _ => true }

/-- A cache state holding one key in memory together with its disk file. -/
def oneEntryState : CacheState :=
  ⟨[("S3Query:k", [7])], [("./cache/S3Query/k.memo", [7])], []⟩

/-- Claim C6, as stated, is false on the code: deletion failures other than
"file does not exist" are logged and skipped, so `clear` completes (memory
emptied) while the disk file of a key the memory tier held at entry is still
present. -/
theorem claim6_counterexample :
    (clear failRemoveEnv oneEntryState).1 = .ok () ∧
    (clear failRemoveEnv oneEntryState).2.memCache = [] ∧
    assocLookup "./cache/S3Query/k.memo"
      (clear failRemoveEnv oneEntryState).2.disk = some [7] := by
  decide

/-- Claim C6 (amended): `clear` (one critical section over the memory lock)
first deletes, for every key currently held by the memory tier, the
corresponding disk file — treating an absent file as success and logging but
never propagating any other deletion failure — and only afterwards empties
the memory tier.  After `clear`, the memory tier is empty, and no disk file
remains for any entry-held key **whose deletion did not fail**; a failed
delete can leave the file behind (see the counterexample).  The hypothesis
`hkeys` records that every memory key is namespaced (contains a colon), as
every key written by `read_value` is. -/
theorem claim6_theorem (env : Env) (st : CacheState)
    (hkeys : ∀ k ∈ st.memCache.map Prod.fst, ∃ d f, splitFirstColon k = some (d, f)) :
    (clear env st).1 = .ok () ∧
    (clear env st).2.memCache = [] ∧
    (∀ k ∈ st.memCache.map Prod.fst, ∀ d f,
      splitFirstColon k = some (d, f) →
      env.removeFails (env.root ++ "/" ++ d ++ "/" ++ f ++ ".memo") = false →
      assocLookup (env.root ++ "/" ++ d ++ "/" ++ f ++ ".memo")
        (clear env st).2.disk = none) := by
  have hloop := clearLoop_fst_ok env (st.memCache.map Prod.fst) st hkeys
  cases hcl : clearLoop env (st.memCache.map Prod.fst) st with
  | mk res st1 =>
      rw [hcl] at hloop
      subst hloop
      refine ⟨?_, ?_, ?_⟩
      · simp [clear, hcl]
      · simp [clear, hcl]
      · intro k hk d f hs hrm
        have h2 := clearLoop_removes env (st.memCache.map Prod.fst) st k d f hk hkeys hs hrm
        rw [hcl] at h2
        simpa [clear, hcl] using h2

/-- Witness for C6 (amended): with a working `os.remove`, clearing the
one-entry cache empties memory and deletes the key's disk file. -/
theorem claim6_witness :
    (clear pureEnv oneEntryState).1 = .ok () ∧
    (clear pureEnv oneEntryState).2.memCache = [] ∧
    assocLookup ("./cache" ++ "/" ++ "S3Query" ++ "/" ++ "k" ++ ".memo")
      (clear pureEnv oneEntryState).2.disk = none := by
  have hkeys : ∀ k ∈ oneEntryState.memCache.map Prod.fst,
      ∃ d f, splitFirstColon k = some (d, f) := by
    intro k hk
    simp [oneEntryState] at hk
    subst hk
    exact ⟨"S3Query", "k", by decide⟩
  have h := claim6_theorem pureEnv oneEntryState hkeys
  exact ⟨h.1, h.2.1,
    h.2.2 "S3Query:k" (by simp [oneEntryState]) "S3Query" "k" (by decide) rfl⟩

/-! ### Claim C9: the faithful path computation

`_get_file_path` ends with
`os.path.abspath(os.path.join(cache_dir, f"{file_name}.memo"))`.
`posixpath.join` resets to its second argument when that argument is
absolute, and `posixpath.abspath` is `normpath(join(getcwd(), path))`,
collapsing `.`/`..`/empty segments.  The definitions below translate
`posixpath.join`, `posixpath.normpath` and `posixpath.abspath`. -/

/-- Split a character list at every occurrence of `sep` (`str.split(sep)`):
`splitSepCore` returns the first component and the remaining components. -/
def splitSepCore (sep : Char) : List Char → List Char × List (List Char)
  | [] => ([], [])
  | c :: cs =>
      let r := splitSepCore sep cs
      if c = sep then ([], r.1 :: r.2) else (c :: r.1, r.2)

/-- `path.split('/')`: the list of components, empties included. -/
def splitSep (sep : Char) (l : List Char) : List (List Char) :=
  (splitSepCore sep l).1 :: (splitSepCore sep l).2

/-- `'/'.join(comps)`. -/
def joinComps (sep : Char) : List (List Char) → List Char
  | [] => []
  | [x] => x
  | x :: xs => x ++ sep :: joinComps sep xs

/-- One iteration of `posixpath.normpath`'s component loop: skip empty and
`"."` components; append a component unless it is a `".."` that can pop a
previous real component (for relative paths, leading `".."`s are kept; for
absolute paths, `".."` at the root is dropped). -/
def normStep (initSlashes : Nat) (acc : List (List Char)) (comp : List Char) :
    List (List Char) :=
  if comp = [] ∨ comp = ['.'] then acc
  else if comp ≠ ['.', '.'] ∨ (initSlashes = 0 ∧ acc = []) ∨ acc.getLast? = some ['.', '.'] then
    acc ++ [comp]
  else if acc ≠ [] then acc.dropLast
  else acc

/-- `posixpath.normpath` on the character list: count the initial slashes
(one, or exactly two — POSIX keeps `//`), process the components, rejoin. -/
def normpathData (p : List Char) : List Char :=
  if p = [] then ['.']
  else
    let initSlashes : Nat :=
      if p.take 1 = ['/'] then
        if p.take 2 = ['/', '/'] ∧ p.take 3 ≠ ['/', '/', '/'] then 2 else 1
      else 0
    let newComps := List.foldl (normStep initSlashes) [] (splitSep '/' p)
    let joined := List.replicate initSlashes '/' ++ joinComps '/' newComps
    if joined = [] then ['.'] else joined

/-- `posixpath.normpath`. -/
def normpath (s : String) : String := ⟨normpathData s.data⟩

/-- `posixpath.join` for two components: an absolute second argument resets
the result. -/
def osJoin (a b : String) : String :=
  if b.data.take 1 = ['/'] then b
  else if a.data = [] ∨ a.data.getLast? = some '/' then a ++ b
  else a ++ "/" ++ b

/-- `posixpath.abspath` relative to the working directory `cwd`. -/
def abspath (cwd p : String) : String :=
  if p.data.take 1 = ['/'] then normpath p else normpath (osJoin cwd p)

/-- The real path `_get_file_path` returns for a namespaced key:
`abspath(join(join(root, dir), file_name + ".memo"))`, as a function of the
working directory and the `CACHE_PATH` root; `none` models the `ValueError`
on a colon-free key. -/
def realFilePathOf (cwd root : String) (valueKey : String) : Option String :=
  match splitFirstColon valueKey with
  | none => none
  | some (d, fname) => some (abspath cwd (osJoin (osJoin root d) (fname ++ ".memo")))

/-- `MemoCache._get_file_path` with the faithful path computation and its
`os.makedirs` side effect (the existence check is on the unnormalized
`cache_dir` join, exactly as in the source): returns the absolute path and
the directory list after the call. -/
def realGetFilePath (cwd root : String) (dirs : List String) (valueKey : String) :
    Option (String × List String) :=
  match splitFirstColon valueKey with
  | none => none
  | some (d, fname) =>
      let cacheDir := osJoin root d
      let dirs2 := if cacheDir ∈ dirs then dirs else cacheDir :: dirs
      some (abspath cwd (osJoin cacheDir (fname ++ ".memo")), dirs2)

/-! ### Lemmas about splitting, joining and normalizing paths -/

theorem splitSepCore_append (sep : Char) (xs ys : List Char) :
    splitSepCore sep (xs ++ sep :: ys) =
      ((splitSepCore sep xs).1,
       (splitSepCore sep xs).2 ++ splitSep sep ys) := by
  induction xs with
  | nil => simp [splitSepCore, splitSep]
  | cons c cs ih =>
      by_cases hc : c = sep
      · simp [splitSepCore, hc, ih]
      · simp [splitSepCore, hc, ih]

theorem splitSep_append (sep : Char) (xs ys : List Char) :
    splitSep sep (xs ++ sep :: ys) = splitSep sep xs ++ splitSep sep ys := by
  simp [splitSep, splitSepCore_append]

theorem splitSepCore_of_not_mem (sep : Char) (l : List Char) (h : sep ∉ l) :
    splitSepCore sep l = (l, []) := by
  induction l with
  | nil => rfl
  | cons c cs ih =>
      have hc : c ≠ sep := fun hc => h (hc ▸ List.mem_cons_self c cs)
      have hcs : sep ∉ cs := fun hm => h (List.mem_cons_of_mem c hm)
      simp [splitSepCore, hc, ih hcs]

theorem splitSep_of_not_mem (sep : Char) (l : List Char) (h : sep ∉ l) :
    splitSep sep l = [l] := by
  simp [splitSep, splitSepCore_of_not_mem sep l h]

theorem splitSepCore_sepFree (sep : Char) (l : List Char) :
    sep ∉ (splitSepCore sep l).1 ∧ ∀ c ∈ (splitSepCore sep l).2, sep ∉ c := by
  induction l with
  | nil => simp [splitSepCore]
  | cons a as ih =>
      by_cases ha : a = sep
      · refine ⟨by simp [splitSepCore, ha], ?_⟩
        intro c hc
        simp only [splitSepCore, if_pos ha] at hc
        rcases List.mem_cons.mp hc with hc | hc
        · subst hc
          exact ih.1
        · exact ih.2 c hc
      · refine ⟨?_, ?_⟩
        · simp only [splitSepCore, if_neg ha]
          intro hm
          rcases List.mem_cons.mp hm with hm | hm
          · exact ha hm.symm
          · exact ih.1 hm
        · intro c hc
          simp only [splitSepCore, if_neg ha] at hc
          exact ih.2 c hc

theorem splitSep_sepFree (sep : Char) (l : List Char) :
    ∀ c ∈ splitSep sep l, sep ∉ c := by
  intro c hc
  rcases List.mem_cons.mp hc with hc | hc
  · subst hc
    exact (splitSepCore_sepFree sep l).1
  · exact (splitSepCore_sepFree sep l).2 c hc

theorem splitSep_joinComps (sep : Char) (xs : List (List Char)) (hne : xs ≠ [])
    (hfree : ∀ x ∈ xs, sep ∉ x) :
    splitSep sep (joinComps sep xs) = xs := by
  induction xs with
  | nil => exact absurd rfl hne
  | cons x xs ih =>
      cases xs with
      | nil =>
          exact splitSep_of_not_mem sep x (hfree x (List.mem_cons_self x []))
      | cons y ys =>
          have hx : sep ∉ x := hfree x (List.mem_cons_self x (y :: ys))
          have hrest : ∀ z ∈ y :: ys, sep ∉ z :=
            fun z hz => hfree z (List.mem_cons_of_mem x hz)
          have hjoin : joinComps sep (x :: y :: ys)
              = x ++ sep :: joinComps sep (y :: ys) := rfl
          rw [hjoin, splitSep_append, splitSep_of_not_mem sep x hx,
            ih (by simp) hrest]
          rfl

theorem normStep_dot (i : Nat) (acc : List (List Char)) :
    normStep i acc ['.'] = acc := by
  simp [normStep]

theorem normStep_normal (i : Nat) (acc : List (List Char)) (comp : List Char)
    (h0 : comp ≠ []) (h1 : comp ≠ ['.']) (h2 : comp ≠ ['.', '.']) :
    normStep i acc comp = acc ++ [comp] := by
  unfold normStep
  rw [if_neg (by simp [h0, h1]), if_pos (Or.inl h2)]

theorem foldl_normStep_sepFree (i : Nat) (comps : List (List Char))
    (acc : List (List Char))
    (hacc : ∀ c ∈ acc, '/' ∉ c) (hcomps : ∀ c ∈ comps, '/' ∉ c) :
    ∀ c ∈ List.foldl (normStep i) acc comps, '/' ∉ c := by
  induction comps generalizing acc with
  | nil => exact hacc
  | cons comp comps ih =>
      refine ih (normStep i acc comp) ?_
        (fun c hc => hcomps c (List.mem_cons_of_mem comp hc))
      intro c hc
      unfold normStep at hc
      split at hc
      · exact hacc c hc
      · split at hc
        · rcases List.mem_append.mp hc with h | h
          · exact hacc c h
          · simp at h
            rw [h]
            exact hcomps comp (List.mem_cons_self comp comps)
        · split at hc
          · exact hacc c (List.dropLast_subset _ hc)
          · exact hacc c hc

theorem memo_comp_normal (f : List Char) :
    f ++ ('.' :: 'm' :: 'e' :: 'm' :: 'o' :: []) ≠ [] ∧
    f ++ ('.' :: 'm' :: 'e' :: 'm' :: 'o' :: []) ≠ ['.'] ∧
    f ++ ('.' :: 'm' :: 'e' :: 'm' :: 'o' :: []) ≠ ['.', '.'] := by
  refine ⟨by simp, ?_, ?_⟩ <;>
    · intro h
      have hlen := congrArg List.length h
      simp at hlen

theorem take_one_ne_of_not_mem (l : List Char) (c : Char) (h0 : l ≠ [])
    (h : c ∉ l) : l.take 1 ≠ [c] := by
  cases l with
  | nil => exact absurd rfl h0
  | cons a as =>
      simp only [List.take]
      intro hc
      simp at hc
      exact h (hc ▸ List.mem_cons_self a as)

theorem getLast?_mem_of_eq : ∀ (l : List Char) (c : Char), l.getLast? = some c → c ∈ l
  | [], c, h => by simp at h
  | [a], c, h => by
      simp at h
      simp [h]
  | a :: b :: tl, c, h => by
      rw [List.getLast?_cons_cons] at h
      exact List.mem_cons_of_mem a (getLast?_mem_of_eq (b :: tl) c h)

theorem getLast?_isSome_of_ne : ∀ (l : List Char), l ≠ [] → ∃ c, l.getLast? = some c
  | [], h => absurd rfl h
  | [a], _ => ⟨a, rfl⟩
  | _ :: b :: tl, _ => by
      rw [List.getLast?_cons_cons]
      exact getLast?_isSome_of_ne (b :: tl) (by simp)

theorem osJoin_cache_d (d : String) (hd : '/' ∉ d.data) (hd0 : d.data ≠ []) :
    osJoin "./cache" d = "./cache" ++ "/" ++ d := by
  unfold osJoin
  rw [if_neg (take_one_ne_of_not_mem d.data '/' hd0 hd), if_neg (by decide)]

theorem osJoin_parts (a fm : String) (ha0 : a.data ≠ [])
    (halast : a.data.getLast? ≠ some '/')
    (hfm0 : fm.data ≠ []) (hfm : '/' ∉ fm.data) :
    osJoin a fm = a ++ "/" ++ fm := by
  unfold osJoin
  rw [if_neg (take_one_ne_of_not_mem fm.data '/' hfm0 hfm),
    if_neg (by simp [ha0, halast])]

theorem normpathData_abs (p : List Char) (h0 : p ≠ []) (h1 : p.take 1 = ['/'])
    (h2 : p.take 2 ≠ ['/', '/']) :
    normpathData p
      = '/' :: joinComps '/' (List.foldl (normStep 1) [] (splitSep '/' p)) := by
  simp only [normpathData, if_neg h0, h1, h2]
  simp

/-- Evaluation of the faithful `_get_file_path` path for a namespaced key
`d:f` with separator-free parts and a normal namespace, relative to a
canonical absolute working directory: the result is the root slash followed
by the normalized `cwd` components, then `cache`, `d`, `f.memo`. -/
theorem abspath_memoPath (cwd d f : String)
    (hcwd1 : cwd.data.take 1 = ['/'])
    (hcwd2 : cwd.data.take 2 ≠ ['/', '/'])
    (hcwd3 : cwd.data.getLast? ≠ some '/')
    (hd : '/' ∉ d.data) (hd0 : d.data ≠ [])
    (hdot : d.data ≠ ['.']) (hddot : d.data ≠ ['.', '.'])
    (hf : '/' ∉ f.data) :
    abspath cwd (osJoin (osJoin "./cache" d) (f ++ ".memo"))
      = ⟨'/' :: joinComps '/'
          (List.foldl (normStep 1) [] (splitSep '/' cwd.data)
            ++ [['c', 'a', 'c', 'h', 'e'], d.data,
                f.data ++ ('.' :: 'm' :: 'e' :: 'm' :: 'o' :: [])])⟩ := by
  have hfmdata : (f ++ ".memo").data
      = f.data ++ ('.' :: 'm' :: 'e' :: 'm' :: 'o' :: []) := by
    simp [String.data_append]
  have hfmfree : '/' ∉ (f ++ ".memo").data := by
    rw [hfmdata]
    intro hm
    rcases List.mem_append.mp hm with hm | hm
    · exact hf hm
    · simp at hm
  have hfm0 : (f ++ ".memo").data ≠ [] := by
    rw [hfmdata]
    simp
  have hj1 : osJoin "./cache" d = "./cache" ++ "/" ++ d := osJoin_cache_d d hd hd0
  have hadata : ("./cache" ++ "/" ++ d).data
      = ['.', '/', 'c', 'a', 'c', 'h', 'e', '/'] ++ d.data := by
    simp [String.data_append]
  have ha0 : ("./cache" ++ "/" ++ d).data ≠ [] := by
    rw [hadata]
    simp
  have halast : ("./cache" ++ "/" ++ d).data.getLast? ≠ some '/' := by
    obtain ⟨y, hy⟩ := getLast?_isSome_of_ne d.data hd0
    rw [hadata, List.getLast?_append, hy, Option.or_some]
    intro hc
    simp at hc
    exact hd (hc ▸ getLast?_mem_of_eq d.data y hy)
  have hj2 : osJoin ("./cache" ++ "/" ++ d) (f ++ ".memo")
      = ("./cache" ++ "/" ++ d) ++ "/" ++ (f ++ ".memo") :=
    osJoin_parts _ _ ha0 halast hfm0 hfmfree
  have hPtake : ((("./cache" ++ "/" ++ d) ++ "/" ++ (f ++ ".memo")).data).take 1 ≠ ['/'] := by
    have hPd : (("./cache" ++ "/" ++ d) ++ "/" ++ (f ++ ".memo")).data
        = '.' :: ('/' :: 'c' :: 'a' :: 'c' :: 'h' :: 'e' :: '/' :: d.data
            ++ '/' :: (f.data ++ ('.' :: 'm' :: 'e' :: 'm' :: 'o' :: []))) := by
      simp [String.data_append]
    rw [hPd]
    simp [List.take]
  have hcwd0 : cwd.data ≠ [] := by
    intro h
    rw [h] at hcwd1
    simp at hcwd1
  rw [hj1, hj2]
  unfold abspath
  rw [if_neg hPtake]
  have hj3 : osJoin cwd (("./cache" ++ "/" ++ d) ++ "/" ++ (f ++ ".memo"))
      = cwd ++ "/" ++ (("./cache" ++ "/" ++ d) ++ "/" ++ (f ++ ".memo")) := by
    unfold osJoin
    rw [if_neg hPtake, if_neg (by simp [hcwd0, hcwd3])]
  rw [hj3]
  obtain ⟨c2, t2, hcw, hc2⟩ :
      ∃ c2 t2, cwd.data = '/' :: c2 :: t2 ∧ c2 ≠ '/' := by
    cases hcw : cwd.data with
    | nil => exact absurd hcw hcwd0
    | cons c t =>
        have hc : c = '/' := by
          rw [hcw] at hcwd1
          simp [List.take] at hcwd1
          exact hcwd1
        subst hc
        cases t with
        | nil =>
            exfalso
            rw [hcw] at hcwd3
            simp at hcwd3
        | cons c2 t2 =>
            refine ⟨c2, t2, rfl, ?_⟩
            intro hc2
            rw [hcw, hc2] at hcwd2
            simp [List.take] at hcwd2
  have hfulldata :
      (cwd ++ "/" ++ (("./cache" ++ "/" ++ d) ++ "/" ++ (f ++ ".memo"))).data
        = cwd.data ++ '/' :: (['.'] ++ '/' :: (['c', 'a', 'c', 'h', 'e']
            ++ '/' :: (d.data ++ '/' :: (f.data
              ++ ('.' :: 'm' :: 'e' :: 'm' :: 'o' :: []))))) := by
    simp [String.data_append]
  unfold normpath
  have hsplitfull :
      splitSep '/' ((cwd ++ "/" ++ (("./cache" ++ "/" ++ d) ++ "/" ++ (f ++ ".memo"))).data)
        = splitSep '/' cwd.data
            ++ [['.'], ['c', 'a', 'c', 'h', 'e'], d.data,
                f.data ++ ('.' :: 'm' :: 'e' :: 'm' :: 'o' :: [])] := by
    rw [hfulldata, splitSep_append, splitSep_append, splitSep_append, splitSep_append,
      splitSep_of_not_mem '/' ['.'] (by decide),
      splitSep_of_not_mem '/' ['c', 'a', 'c', 'h', 'e'] (by decide),
      splitSep_of_not_mem '/' d.data hd,
      splitSep_of_not_mem '/' (f.data ++ ('.' :: 'm' :: 'e' :: 'm' :: 'o' :: []))
        (by
          intro hm
          rcases List.mem_append.mp hm with hm | hm
          · exact hf hm
          · simp at hm)]
    simp
  have hfull0 : (cwd ++ "/" ++ (("./cache" ++ "/" ++ d) ++ "/" ++ (f ++ ".memo"))).data ≠ [] := by
    rw [hfulldata]
    simp [hcwd0]
  have hfulltake1 :
      ((cwd ++ "/" ++ (("./cache" ++ "/" ++ d) ++ "/" ++ (f ++ ".memo"))).data).take 1
        = ['/'] := by
    rw [hfulldata, hcw]
    simp [List.take]
  have hfulltake2 :
      ((cwd ++ "/" ++ (("./cache" ++ "/" ++ d) ++ "/" ++ (f ++ ".memo"))).data).take 2
        ≠ ['/', '/'] := by
    rw [hfulldata, hcw]
    simp [List.take, hc2]
  rw [normpathData_abs _ hfull0 hfulltake1 hfulltake2, hsplitfull, List.foldl_append]
  have hmemo := memo_comp_normal f.data
  have hfold : List.foldl (normStep 1)
      (List.foldl (normStep 1) [] (splitSep '/' cwd.data))
      [['.'], ['c', 'a', 'c', 'h', 'e'], d.data,
       f.data ++ ('.' :: 'm' :: 'e' :: 'm' :: 'o' :: [])]
      = List.foldl (normStep 1) [] (splitSep '/' cwd.data)
          ++ [['c', 'a', 'c', 'h', 'e'], d.data,
              f.data ++ ('.' :: 'm' :: 'e' :: 'm' :: 'o' :: [])] := by
    generalize List.foldl (normStep 1) [] (splitSep '/' cwd.data) = S0
    simp only [List.foldl]
    rw [normStep_dot 1 S0,
      normStep_normal 1 S0 ['c', 'a', 'c', 'h', 'e'] (by decide) (by decide) (by decide),
      normStep_normal 1 (S0 ++ [['c', 'a', 'c', 'h', 'e']]) d.data hd0 hdot hddot,
      normStep_normal 1 ((S0 ++ [['c', 'a', 'c', 'h', 'e']]) ++ [d.data])
        (f.data ++ ('.' :: 'm' :: 'e' :: 'm' :: 'o' :: []))
        hmemo.1 hmemo.2.1 hmemo.2.2]
    simp
  rw [hfold]

/-! ### Claim C9 -/

/-- Claim C9, as stated, is false on the code in two ways, shown through the
faithful path semantics (`os.path.join` + `os.path.abspath`, working
directory `/home`).  Injectivity fails three ways: `"x:a/../b"` and `"x:b"`
— whose namespace part `x` is separator-free — collide at
`/home/cache/x/b.memo` because `normpath` collapses the `..` segment;
`"x:/e/p"` and `"y:/e/p"` collide at `/e/p.memo` because `os.path.join`
resets on an absolute second component; and `"a/b:c"`/`"a:b/c"` collide at
`/home/cache/a/b/c.memo` by plain separator mixing.  Purity fails because
`_get_file_path` runs `os.makedirs`: mapping `"a:b"` from a fresh state
returns the path *and* a changed filesystem state (directory `./cache/a`
now exists). -/
theorem claim9_counterexample :
    realFilePathOf "/home" "./cache" "x:a/../b" = some "/home/cache/x/b.memo" ∧
    realFilePathOf "/home" "./cache" "x:b" = some "/home/cache/x/b.memo" ∧
    ("x:a/../b" : String) ≠ "x:b" ∧
    realFilePathOf "/home" "./cache" "x:/e/p" = some "/e/p.memo" ∧
    realFilePathOf "/home" "./cache" "y:/e/p" = some "/e/p.memo" ∧
    ("x:/e/p" : String) ≠ "y:/e/p" ∧
    realFilePathOf "/home" "./cache" "a/b:c" = some "/home/cache/a/b/c.memo" ∧
    realFilePathOf "/home" "./cache" "a:b/c" = some "/home/cache/a/b/c.memo" ∧
    ("a/b:c" : String) ≠ "a:b/c" ∧
    realGetFilePath "/home" "./cache" [] "a:b"
      = some ("/home/cache/a/b.memo", ["./cache/a"]) ∧
    (["./cache/a"] : List String) ≠ [] := by
  decide

/-- Claim C9 (amended): the path computation of `_get_file_path` is
deterministic in the namespaced key given the working directory and the
`CACHE_PATH` root, and maps `"{kind}:{rawKey}"` (splitting at the *first*
colon) to `abspath(join(join(root, kind), rawKey + ".memo"))` — the
normalized form of `{root}/{kind}/{rawKey}.memo`.  It is injective only on
namespaced keys both of whose parts are free of the path separator `/` and
whose namespace part is a normal component (not empty, `"."` or `".."`),
relative to a canonical absolute working directory; it is not injective in
general, and the real function additionally creates the namespace directory
(`os.makedirs`) as a side effect — the counterexample shows all failures. -/
theorem claim9_theorem (cwd kind raw k1 k2 d1 f1 d2 f2 : String)
    (hcwd1 : cwd.data.take 1 = ['/'])
    (hcwd2 : cwd.data.take 2 ≠ ['/', '/'])
    (hcwd3 : cwd.data.getLast? ≠ some '/')
    (hk : ':' ∉ kind.data)
    (h1 : splitFirstColon k1 = some (d1, f1))
    (h2 : splitFirstColon k2 = some (d2, f2))
    (hd1 : '/' ∉ d1.data) (hf1 : '/' ∉ f1.data)
    (hd2 : '/' ∉ d2.data) (hf2 : '/' ∉ f2.data)
    (hn1 : d1.data ≠ [] ∧ d1.data ≠ ['.'] ∧ d1.data ≠ ['.', '.'])
    (hn2 : d2.data ≠ [] ∧ d2.data ≠ ['.'] ∧ d2.data ≠ ['.', '.']) :
    realFilePathOf cwd "./cache" (kind ++ ":" ++ raw)
      = some (abspath cwd (osJoin (osJoin "./cache" kind) (raw ++ ".memo"))) ∧
    (k1 ≠ k2 → realFilePathOf cwd "./cache" k1 ≠ realFilePathOf cwd "./cache" k2) := by
  constructor
  · simp [realFilePathOf, splitFirstColon_append kind raw hk]
  · intro hne heq
    apply hne
    simp only [realFilePathOf, h1, h2, Option.some.injEq] at heq
    rw [abspath_memoPath cwd d1 f1 hcwd1 hcwd2 hcwd3 hd1 hn1.1 hn1.2.1 hn1.2.2 hf1,
      abspath_memoPath cwd d2 f2 hcwd1 hcwd2 hcwd3 hd2 hn2.1 hn2.2.1 hn2.2.2 hf2] at heq
    have hdataeq := congrArg String.data heq
    simp only [List.cons.injEq, true_and] at hdataeq
    have hS0free : ∀ c ∈ List.foldl (normStep 1) [] (splitSep '/' cwd.data), '/' ∉ c :=
      foldl_normStep_sepFree 1 (splitSep '/' cwd.data) [] (by simp)
        (splitSep_sepFree '/' cwd.data)
    have hfree1 : ∀ c ∈ List.foldl (normStep 1) [] (splitSep '/' cwd.data)
        ++ [['c', 'a', 'c', 'h', 'e'], d1.data,
            f1.data ++ ('.' :: 'm' :: 'e' :: 'm' :: 'o' :: [])], '/' ∉ c := by
      intro c hc
      rcases List.mem_append.mp hc with hc | hc
      · exact hS0free c hc
      · simp at hc
        rcases hc with hc | hc | hc
        · rw [hc]; decide
        · rw [hc]; exact hd1
        · rw [hc]
          intro hm
          rcases List.mem_append.mp hm with hm | hm
          · exact hf1 hm
          · simp at hm
    have hfree2 : ∀ c ∈ List.foldl (normStep 1) [] (splitSep '/' cwd.data)
        ++ [['c', 'a', 'c', 'h', 'e'], d2.data,
            f2.data ++ ('.' :: 'm' :: 'e' :: 'm' :: 'o' :: [])], '/' ∉ c := by
      intro c hc
      rcases List.mem_append.mp hc with hc | hc
      · exact hS0free c hc
      · simp at hc
        rcases hc with hc | hc | hc
        · rw [hc]; decide
        · rw [hc]; exact hd2
        · rw [hc]
          intro hm
          rcases List.mem_append.mp hm with hm | hm
          · exact hf2 hm
          · simp at hm
    have hsplit := congrArg (splitSep '/') hdataeq
    rw [splitSep_joinComps '/' _ (by simp) hfree1,
      splitSep_joinComps '/' _ (by simp) hfree2] at hsplit
    have hlist := List.append_cancel_left hsplit
    simp only [List.cons.injEq, and_true, true_and] at hlist
    obtain ⟨hd12, hfm12⟩ := hlist
    have hf12 : f1.data = f2.data := List.append_cancel_right hfm12
    have hk1 := (splitFirstColon_eq k1 d1 f1 h1).1
    have hk2 := (splitFirstColon_eq k2 d2 f2 h2).1
    have hdd : k1.data = k2.data := by
      rw [hk1, hk2, hd12, hf12]
    exact congrArg String.mk hdd

/-- Witness for C9 (amended): the mapping at kind `S3Query`, raw key `k`,
and injectivity exercised at the two *distinct* well-formed keys `"x:y"` and
`"x:z"`, whose real paths are shown to differ. -/
theorem claim9_witness :
    realFilePathOf "/home" "./cache" ("S3Query" ++ ":" ++ "k")
      = some (abspath "/home" (osJoin (osJoin "./cache" "S3Query") ("k" ++ ".memo"))) ∧
    realFilePathOf "/home" "./cache" "x:y" ≠ realFilePathOf "/home" "./cache" "x:z" := by
  have h := claim9_theorem "/home" "S3Query" "k" "x:y" "x:z" "x" "y" "x" "z"
    (by decide) (by decide) (by decide) (by decide) (by decide) (by decide)
    (by decide) (by decide) (by decide) (by decide)
    ⟨by decide, by decide, by decide⟩ ⟨by decide, by decide, by decide⟩
  exact ⟨h.1, h.2 (by decide)⟩

end MemoCacheModel
